import Mathlib

/-!
# Verification of the gauge-creator telemetry-to-video core

Shallow embedding of the parsing + generation core of the repository
(`backend_logic.py`, `gauge_generator.py`) and proofs of the specification
claims about it.  Numeric values that are Python floats/ints are embedded as
`ℚ`/`ℤ` (exact arithmetic); the transcendental heart-animation scale factor
lives in `ℝ`.  External library results (PIL text rasterization, icon files,
numpy pixel blending) are embedded as a free datatype of compositing
operations: the libraries are deterministic, so two calls yield equal images
exactly when the operation traces are equal.
-/

set_option maxRecDepth 16000

namespace GaugeCreator

/-! ## Definitions: the embedded program -/


/-- Python `int(x)` applied to a float: truncation toward zero.  Defined via
the executable `Rat.floor`/`Rat.ceil` so that concrete runs reduce in the
kernel; `pyInt_eq_floor` relates it to the mathematical floor. -/
def pyInt (q : ℚ) : ℤ := if q < 0 then q.ceil else q.floor

/-- Python `a // b` on ints: floor division. -/
def pyFloorDiv (a b : ℤ) : ℤ := Int.fdiv a b

def VIDEO_FPS : ℕ := 30

/-- `duration_seconds`: difference of the last and first timestamps of the
sliced series, in seconds (`trackpoints[-1]['time'] - trackpoints[0]['time']`). -/
def durationSeconds (times : List ℚ) : ℚ :=
  times.getLast?.getD 0 - times.head?.getD 0

/-- `num_interpolated = int(duration_seconds * VIDEO_FPS) if duration_seconds > 0 else 1`. -/
def numInterpolated (d : ℚ) : ℕ :=
  if 0 < d then (pyInt (d * 30)).toNat else 1

/-- Frame count produced for a sliced series with the given timestamps. -/
def numInterpolatedOf (times : List ℚ) : ℕ :=
  numInterpolated (durationSeconds times)

def cacheKey (p hr : ℚ) : ℤ × ℤ := (pyInt p, pyInt hr)

/-- One trackpoint as produced by `parse_tcx_file` (time already normalized to
an absolute UTC instant, in seconds). -/
structure Trackpoint where
  time : ℚ
  power : ℤ
  hr : ℤ
  cadence : ℤ
  distance : Option ℚ
  deriving DecidableEq, Repr

/-- The speed loop of `parse_tcx_file` for indices `i > 0`, carrying the
previous point and its already-computed speed (`trackpoints[i-1].get('speed', 0)`
always finds the value set on the previous iteration). -/
def speedsAux (prev : Trackpoint) (prevSpeed : ℚ) : List Trackpoint → List ℚ
  | [] => []
  | tp :: rest =>
    let s : ℚ :=
      match tp.distance, prev.distance with
      | some d, some pd =>
        if 0 < tp.time - prev.time then (d - pd) / (tp.time - prev.time) else prevSpeed
      | _, _ => 0
    s :: speedsAux tp s rest

/-- Speeds assigned by the loop at `backend_logic.py` lines 76-86: index 0
falls into the `else` branch (`i > 0` fails) and gets speed `0`. -/
def computeSpeeds : List Trackpoint → List ℚ
  | [] => []
  | tp :: rest => 0 :: speedsAux tp 0 rest

/-- The speed rule as claim C3 words it (for comparison with the source):
on a missing distance the speed also *inherits* the previous point's speed. -/
def claimSpeedsAux (prev : Trackpoint) (prevSpeed : ℚ) : List Trackpoint → List ℚ
  | [] => []
  | tp :: rest =>
    let s : ℚ :=
      match tp.distance, prev.distance with
      | some d, some pd =>
        if 0 < tp.time - prev.time then (d - pd) / (tp.time - prev.time) else prevSpeed
      | _, _ => prevSpeed
    s :: claimSpeedsAux tp s rest

/-- Claim C3's speed assignment for a whole series (first point's speed 0). -/
def claimSpeeds : List Trackpoint → List ℚ
  | [] => []
  | tp :: rest => 0 :: claimSpeedsAux tp 0 rest

/-- A Python `datetime`: naive (`offset = none`) or timezone-aware with a
fixed UTC offset in seconds.  Its absolute UTC instant is `value - offset`. -/
structure PyDatetime where
  value : ℚ
  offset : Option ℚ
  deriving DecidableEq, Repr

/-- Normalization performed at `backend_logic.py` lines 104-112: a naive
datetime is interpreted in the caller's local zone (`astimezone()`), then
converted to UTC; an aware datetime is converted directly
(`astimezone(timezone.utc)`). -/
def toUtcSeconds (localOffset : ℚ) (t : PyDatetime) : ℚ :=
  t.value - t.offset.getD localOffset

/-- The slicing loop of `slice_data_and_save_json`: keep, in order, every
trackpoint with `start_time_utc <= tp['time'] <= end_time_utc`.  (The JSON
serialization of the kept points is external I/O and not modelled.) -/
def slice_data_and_save_json (localOffset : ℚ) (start_time end_time : PyDatetime) :
    List Trackpoint → List Trackpoint
  | [] => []
  | tp :: rest =>
    if toUtcSeconds localOffset start_time ≤ tp.time ∧
        tp.time ≤ toUtcSeconds localOffset end_time then
      tp :: slice_data_and_save_json localOffset start_time end_time rest
    else
      slice_data_and_save_json localOffset start_time end_time rest

/-- Concrete series for the speed counterexample: distances `0 m`, `1 m`,
then a missing distance, at times `0 s`, `1 s`, `2 s`. -/
def exC3 : List Trackpoint :=
  [⟨0, 0, 0, 0, some 0⟩, ⟨1, 0, 0, 0, some 1⟩, ⟨2, 0, 0, 0, none⟩]

/-- Greedily read up to `maxN` decimal digits, returning the value, the
number of digits read, and the remaining characters. -/
def takeDigits (maxN : ℕ) : ℕ → ℕ → List Char → ℕ × ℕ × List Char
  | acc, cnt, [] => (acc, cnt, [])
  | acc, cnt, c :: cs =>
    if cnt < maxN ∧ c.isDigit then takeDigits maxN (acc * 10 + (c.toNat - 48)) (cnt + 1) cs
    else (acc, cnt, c :: cs)

/-- Read between `minN` and `maxN` digits. -/
def readNum (maxN minN : ℕ) (cs : List Char) : Option (ℕ × ℕ × List Char) :=
  let r := takeDigits maxN 0 0 cs
  if minN ≤ r.2.1 then some r else none

def expectChar (c : Char) : List Char → Option (List Char)
  | [] => none
  | d :: cs => if d = c then some cs else none

def isLeapYear (y : ℕ) : Bool := y % 4 == 0 && (y % 100 != 0 || y % 400 == 0)

def daysInMonth (y m : ℕ) : ℕ :=
  if m = 2 then (if isLeapYear y then 29 else 28)
  else if m = 4 ∨ m = 6 ∨ m = 9 ∨ m = 11 then 30
  else 31

/-- A parsed UTC timestamp (what `datetime.strptime(..).replace(tzinfo=utc)`
yields). -/
structure UtcTime where
  year : ℕ
  month : ℕ
  day : ℕ
  hour : ℕ
  minute : ℕ
  second : ℕ
  micro : ℕ
  deriving DecidableEq, Repr

/-- The two-format timestamp parse at `backend_logic.py` lines 53-62: the
fractional branch models `%Y-%m-%dT%H:%M:%S.%fZ`, the other
`%Y-%m-%dT%H:%M:%SZ`; both require the literal `Z` suffix and full
consumption, and the calendar/clock ranges `strptime` and the `datetime`
constructor enforce. -/
def parseTcxTime (str : String) : Option UtcTime := do
  let cs0 := str.data
  let (y, _, cs1) ← readNum 4 4 cs0
  let cs2 ← expectChar '-' cs1
  let (mo, _, cs3) ← readNum 2 1 cs2
  let cs4 ← expectChar '-' cs3
  let (d, _, cs5) ← readNum 2 1 cs4
  let cs6 ← expectChar 'T' cs5
  let (h, _, cs7) ← readNum 2 1 cs6
  let cs8 ← expectChar ':' cs7
  let (mi, _, cs9) ← readNum 2 1 cs8
  let cs10 ← expectChar ':' cs9
  let (sec, _, cs11) ← readNum 2 1 cs10
  let (frac, fcnt, cs12) ←
    match cs11 with
    | '.' :: cs' => readNum 6 1 cs'
    | _ => some (0, 0, cs11)
  let cs13 ← expectChar 'Z' cs12
  if cs13 = [] ∧ 1 ≤ mo ∧ mo ≤ 12 ∧ 1 ≤ d ∧ d ≤ daysInMonth y mo ∧
      h ≤ 23 ∧ mi ≤ 59 ∧ sec ≤ 59 then
    some ⟨y, mo, d, h, mi, sec, frac * 10 ^ (6 - fcnt)⟩
  else none

/-- A raw trackpoint sample: the scalar fields extracted from one
`<Trackpoint>` element (`timeStr = none` models a missing `<Time>` child,
which line 36 skips silently; missing numeric fields default upstream). -/
structure RawSample where
  timeStr : Option String
  power : ℤ
  hr : ℤ
  cadence : ℤ
  distance : Option ℚ
  deriving DecidableEq, Repr

/-- A validated trackpoint, pre speed derivation. -/
structure ParsedPoint where
  time : UtcTime
  power : ℤ
  hr : ℤ
  cadence : ℤ
  distance : Option ℚ
  deriving DecidableEq, Repr

/-- The filtering loop at lines 33-70: skip samples without a time string,
skip (with a printed warning) samples whose time string parses in neither
format, and keep the rest in order. -/
def buildAux : List RawSample → List ParsedPoint × List String
  | [] => ([], [])
  | r :: rest =>
    let acc := buildAux rest
    match r.timeStr with
    | none => acc
    | some ts =>
      match parseTcxTime ts with
      | some t => (⟨t, r.power, r.hr, r.cadence, r.distance⟩ :: acc.1, acc.2)
      | none => (acc.1, ("Warning: Skipping trackpoint with unparsable time: " ++ ts) :: acc.2)

/-- `parse_tcx_file` after container parsing: raise on an input with no
trackpoint nodes, filter, raise if nothing survived, else return the
points together with the emitted warnings. -/
def parse_tcx_file (raws : List RawSample) : Except String (List ParsedPoint × List String) :=
  if raws.isEmpty then
    .error "TCX file does not contain any Trackpoint data."
  else
    let r := buildAux raws
    if r.1.isEmpty then
      .error "Successfully parsed TCX file, but no valid trackpoints with recognized timestamps were found."
    else
      .ok r

def exRaws : List RawSample :=
  [⟨some "2023-06-01T12:00:00Z", 100, 120, 80, some 0⟩,
   ⟨some "not-a-time", 150, 130, 82, some 10⟩,
   ⟨none, 0, 0, 0, none⟩]

/-- The external failure modes of one `orchestrate_video_generation` run:
whether the temp file pre-existed, and which of the five `try`-body steps
raises (`progress_callback(10)`, `slice_data_and_save_json` — which may or
may not have created the temp file before failing —, `progress_callback(20)`
(together with the adapter), `create_gauge_video`, `progress_callback(100)`). -/
structure OrchEnv where
  tempPreExists : Bool
  cb10Raises : Bool
  sliceCreates : Bool
  sliceRaises : Bool
  cb20Raises : Bool
  genRaises : Bool
  cb100Raises : Bool
  deriving DecidableEq, Repr

/-- Outcome of a run: whether it returned normally, and whether the temp
JSON artifact still exists after the `finally` block. -/
structure OrchOutcome where
  ok : Bool
  tempExists : Bool
  deriving DecidableEq, Repr

/-- `orchestrate_video_generation`: the `try` body runs the five steps in
order, stopping at the first raise; the `finally` block removes the temp
file when it exists (`if os.path.exists: os.remove`). -/
def orchestrate_video_generation (env : OrchEnv) : OrchOutcome :=
  let body : Bool × Bool :=
    if env.cb10Raises then (false, env.tempPreExists)
    else
      let fs1 := env.tempPreExists || env.sliceCreates
      if env.sliceRaises then (false, fs1)
      else if env.cb20Raises then (false, fs1)
      else if env.genRaises then (false, fs1)
      else if env.cb100Raises then (false, fs1)
      else (true, fs1)
  ⟨body.1, if body.2 then false else body.2⟩

/-- Master-configuration constants, lines 58-76. -/
def BODY_WEIGHT_KG : ℚ := 65
def LAYOUT_START_X : ℤ := 100
def LAYOUT_START_Y : ℤ := 100
def LINE_SPACING : ℤ := 30
def ICON_SPACING : ℤ := 20
def ICON_TARGET_HEIGHT : ℤ := 90
def LINE_HEIGHT_XL : ℤ := 130
def LINE_HEIGHT_L : ℤ := 100

/-- An external raster image: an outlined-text rasterization
(`draw_text_with_outline_pil(s, font(fontSize), white, black, 5)`) or an
icon asset resized to `w × h`. -/
inductive Img where
  | text (s : String) (fontSize : ℕ)
  | asset (name : String) (w h : ℤ)
  deriving DecidableEq, Repr

/-- The two icons, loaded and resized to height `ICON_TARGET_HEIGHT` at
lines 82-89 (`resize_icon` keeps the file's aspect ratio; the files'
original pixel sizes are external, modelled as square). -/
def LIGHTNING_ICON : Img := .asset "lightning" 90 90
def HEART_ICON : Img := .asset "heart" 90 90

/-- Modelled pixel width (external font metric / stored icon width). -/
def Img.w : Img → ℤ
  | .text s fontSize => (fontSize * s.length : ℕ)
  | .asset _ w _ => w

/-- Modelled pixel height (external font metric / stored icon height). -/
def Img.h : Img → ℤ
  | .text _ fontSize => (fontSize : ℕ) + 10
  | .asset _ _ h => h

/-- A composited video frame: `np.full` background plus a sequence of
`overlay_image_alpha(frame, pil_to_cv2(img), x, y)` alpha-blends. -/
inductive Raster where
  | fill (r g b : ℕ)
  | overlay (base : Raster) (icon : Img) (x y : ℤ)
  deriving DecidableEq, Repr

/-- Python-dict association-list lookup. -/
def lookupA {α β : Type} [DecidableEq α] : List (α × β) → α → Option β
  | [], _ => none
  | (k, v) :: rest, k2 => if k2 = k then some v else lookupA rest k2

/-- `text_cache`: maps text strings to their rendered glyph images. -/
abbrev TextCache := List (String × Img)

/-- `base_frame_cache`: maps quantized `(power, hr)` keys to base rasters. -/
abbrev BaseCache := List ((ℤ × ℤ) × Raster)

/-- The `if s not in text_cache: text_cache[s] = draw_text(...)` pattern of
lines 143-145 / 155-156 / 164-165, followed by the read-back. -/
def getOrInsertText (tc : TextCache) (s : String) (fontSize : ℕ) : TextCache × Img :=
  match lookupA tc s with
  | some im => (tc, im)
  | none => ((s, Img.text s fontSize) :: tc, Img.text s fontSize)

/-- `f"{power_val}W"`. -/
def powerTextStr (p : ℤ) : String := toString p ++ "W"

/-- Python `f"{x:.1f}"`: the value rounded to one decimal (for the
pipeline's non-negative watts-per-kilogram values). -/
def fmt1 (x : ℚ) : String :=
  let n : ℤ := (x * 10 + 1/2).floor
  toString (n / 10) ++ "." ++ toString (n % 10)

/-- `f"{w_per_kg_val:.1f} W/kg"`. -/
def wkgTextStr (x : ℚ) : String := fmt1 x ++ " W/kg"

/-- `f"{hr_val} bpm"`. -/
def hrTextStr (h : ℤ) : String := toString h ++ " bpm"

/-- The per-frame metric values the loop reads at lines 125-127
(`interpolated_data['power'][i]`, `['hr'][i]`, `['w_per_kg'][i]`). -/
structure FrameVals where
  power : ℚ
  hr : ℚ
  wpk : ℚ
  deriving DecidableEq, Repr

/-- What one loop iteration produces before the heart overlay: the base
raster (cloned from cache or freshly rendered), the heart-rate text image
used to position the heart icon, the cache key, and `hr_val` / frame index
feeding the animation. -/
structure Entry where
  base : Raster
  hrImg : Img
  key : ℤ × ℤ
  hrVal : ℤ
  idx : ℕ
  deriving DecidableEq, Repr

inductive VideoErr where
  | assetMissing
  | emptyInput
  | sinkOpen
  | sinkWrite
  | keyError
  deriving DecidableEq, Repr

/-- One iteration of the render loop, lines 124-171: quantize to the cache
key; on a hit, clone the cached raster and read the heart-rate text from
`text_cache` (a Python `KeyError` if absent — modelled as an error); on a
miss, render background, power text + lightning icon, W/kg text, and
heart-rate text, then store the base raster under the key. -/
def renderStep (tc : TextCache) (bc : BaseCache) (v : FrameVals) (i : ℕ) :
    Except VideoErr (TextCache × BaseCache × Entry) :=
  let power_val := pyInt v.power
  let hr_val := pyInt v.hr
  let key := (power_val, hr_val)
  match lookupA bc key with
  | some cached =>
    match lookupA tc (hrTextStr hr_val) with
    | some hrImg => .ok (tc, bc, ⟨cached, hrImg, key, hr_val, i⟩)
    | none => .error .keyError
  | none =>
    let frame0 := Raster.fill 255 0 0
    let pRes := getOrInsertText tc (powerTextStr power_val) 120
    let textY1 := LAYOUT_START_Y + pyFloorDiv (LINE_HEIGHT_XL - pRes.2.h) 2
    let frame1 := Raster.overlay frame0 pRes.2 LAYOUT_START_X textY1
    let iconX1 := LAYOUT_START_X + pRes.2.w + ICON_SPACING
    let iconY1 := LAYOUT_START_Y + pyFloorDiv (LINE_HEIGHT_XL - LIGHTNING_ICON.h) 2
    let frame2 := Raster.overlay frame1 LIGHTNING_ICON iconX1 iconY1
    let y1 := LAYOUT_START_Y + LINE_HEIGHT_XL + LINE_SPACING
    let wRes := getOrInsertText pRes.1 (wkgTextStr v.wpk) 90
    let textY2 := y1 + pyFloorDiv (LINE_HEIGHT_L - wRes.2.h) 2
    let frame3 := Raster.overlay frame2 wRes.2 LAYOUT_START_X textY2
    let y2 := y1 + LINE_HEIGHT_L + LINE_SPACING
    let hRes := getOrInsertText wRes.1 (hrTextStr hr_val) 90
    let textY3 := y2 + pyFloorDiv (LINE_HEIGHT_L - hRes.2.h) 2
    let frame4 := Raster.overlay frame3 hRes.2 LAYOUT_START_X textY3
    .ok (hRes.1, (key, frame4) :: bc, ⟨frame4, hRes.2, key, hr_val, i⟩)

/-- The `for i in range(total_frames)` loop of lines 124-189, threading both
caches; `failAt = some i` models `out.write` raising `SinkWriteFailure` at
frame `i` (the write follows the render of that frame). -/
def videoLoop (failAt : Option ℕ) : TextCache → BaseCache → ℕ → List FrameVals →
    Except VideoErr (TextCache × BaseCache × List Entry)
  | tc, bc, _, [] => .ok (tc, bc, [])
  | tc, bc, i, v :: rest =>
    match renderStep tc bc v i with
    | .error e => .error e
    | .ok (tc1, bc1, en) =>
      if failAt = some i then .error .sinkWrite
      else
        match videoLoop failAt tc1 bc1 (i + 1) rest with
        | .error e => .error e
        | .ok (tc2, bc2, es) => .ok (tc2, bc2, en :: es)

deriving instance DecidableEq for Except

/-- Result of a `create_gauge_video` call: the outcome, whether the
`cv2.VideoWriter` was successfully opened, and whether `out.release()` ran
before returning. -/
structure GaugeRun where
  result : Except VideoErr (List Entry)
  opened : Bool
  released : Bool
  deriving DecidableEq, Repr

/-- `create_gauge_video`, lines 53-191: load assets (raise on a missing
file), reject empty input, open the sink (raise if it cannot be opened), run
the render-and-write loop, and call `out.release()` *after* the loop — there
is no try/finally, so an exception inside the loop propagates without the
release. -/
def create_gauge_video (assetsOk openOk : Bool) (failAt : Option ℕ)
    (vals : List FrameVals) : GaugeRun :=
  if assetsOk = false then ⟨.error .assetMissing, false, false⟩
  else if vals = [] then ⟨.error .emptyInput, false, false⟩
  else if openOk = false then ⟨.error .sinkOpen, false, false⟩
  else
    match videoLoop failAt [] [] 0 vals with
    | .ok out => ⟨.ok out.2.2, true, true⟩
    | .error e => ⟨.error e, true, false⟩

/-- `HEART_ANIMATION_STRENGTH = 0.15`. -/
noncomputable def HEART_ANIMATION_STRENGTH : ℝ := 0.15

/-- The scale factor of lines 175-177 at a configurable frame rate:
`1.0 + strength * (sin(2π * (hr_val/60) * (i/fps)) * 0.5 + 0.5)`. -/
noncomputable def scaleFactorAt (fps : ℕ) (hr : ℤ) (i : ℕ) : ℝ :=
  1 + HEART_ANIMATION_STRENGTH *
    (Real.sin (2 * Real.pi * ((hr : ℝ) / 60) * ((i : ℝ) / (fps : ℝ))) * 0.5 + 0.5)

/-- The scale factor at the configured `VIDEO_FPS = 30`. -/
noncomputable def scaleFactor (hr : ℤ) (i : ℕ) : ℝ := scaleFactorAt VIDEO_FPS hr i

/-- Python `int()` on a float value, here applied to real-valued sizes. -/
noncomputable def pyIntR (x : ℝ) : ℤ := if x < 0 then ⌈x⌉ else ⌊x⌋

/-- Lines 174-183: resize the heart icon by the animation scale factor and
alpha-composite it beside the heart-rate text onto the (possibly cloned)
base raster. -/
noncomputable def compositeEntry (e : Entry) : Raster :=
  let s := scaleFactor e.hrVal e.idx
  let bw := pyIntR (90 * s)
  let bh := pyIntR (90 * s)
  let beating_heart := Img.asset "heart" bw bh
  let iconX := LAYOUT_START_X + e.hrImg.w + ICON_SPACING
  let iconY := (LAYOUT_START_Y + LINE_HEIGHT_XL + LINE_SPACING + LINE_HEIGHT_L + LINE_SPACING) +
    pyFloorDiv (LINE_HEIGHT_L - bh) 2
  Raster.overlay e.base beating_heart iconX iconY

/-- The entries of a full no-failure render run from empty caches. -/
def entriesOf (vals : List FrameVals) : Option (List Entry) :=
  match videoLoop none [] [] 0 vals with
  | .ok out => some out.2.2
  | .error _ => none

def entryAt (vals : List FrameVals) (i : ℕ) : Option Entry :=
  (entriesOf vals).bind fun es => es[i]?

def keyAt (vals : List FrameVals) (i : ℕ) : Option (ℤ × ℤ) :=
  (entryAt vals i).map Entry.key

def baseAt (vals : List FrameVals) (i : ℕ) : Option Raster :=
  (entryAt vals i).map Entry.base

def hrImgAt (vals : List FrameVals) (i : ℕ) : Option Img :=
  (entryAt vals i).map Entry.hrImg

noncomputable def scaleAt (vals : List FrameVals) (i : ℕ) : Option ℝ :=
  (entryAt vals i).map fun e => scaleFactor e.hrVal e.idx

/-- The finished frame `i`: base raster plus animated heart overlay. -/
noncomputable def frameAt (vals : List FrameVals) (i : ℕ) : Option Raster :=
  (entryAt vals i).map compositeEntry

/-- Every heart-rate string bound in the text cache is bound to its own
`FONT_L` rasterization (never a power/W-kg glyph). -/
def TCgood (tc : TextCache) : Prop :=
  ∀ h2 im, lookupA tc (hrTextStr h2) = some im → im = Img.text (hrTextStr h2) 90

/-- Whenever a key is in the base-frame cache, the heart-rate text for that
key's `hr_val` component is in the text cache (claim C10's invariant). -/
def HitGood (tc : TextCache) (bc : BaseCache) : Prop :=
  ∀ k r, lookupA bc k = some r → ∃ im, lookupA tc (hrTextStr k.2) = some im

/-- Two identical frames with `heartRate` truncating to 0 (zero beat
frequency, so the overlay is the same every frame). -/
def exC5 : List FrameVals := [⟨100, 0, 2⟩, ⟨100, 0, 2⟩]

/-- One-frame input for the write-failure run. -/
def exC4 : List FrameVals := [⟨100, 60, 2⟩]

/-! ## Theorems: the claims -/

theorem ratFloor_eq_floor (q : ℚ) : q.floor = ⌊q⌋ := by
  rw [Rat.floor_def', Rat.floor_def]

/-- On non-negative values (the only ones the pipeline feeds it), Python
truncation agrees with the floor. -/
theorem pyInt_eq_floor {q : ℚ} (h : 0 ≤ q) : pyInt q = ⌊q⌋ := by
  rw [pyInt, if_neg (not_lt.mpr h), ratFloor_eq_floor]

/-- C1 (amended): for positive slice duration `d`, the code produces
`int(d * 30)` frames — the *truncation* of `d * 30`, not its rounding — so the
count `n` satisfies `n ≤ 30 d < n + 1`, and it is at least 1 exactly when
`d ≥ 1/30` (durations in `(0, 1/30)` yield 0 frames, not 1). -/
theorem frameCount_truncates (times : List ℚ) (h : 0 < durationSeconds times) :
    (numInterpolatedOf times : ℚ) ≤ durationSeconds times * 30 ∧
    durationSeconds times * 30 < (numInterpolatedOf times : ℚ) + 1 ∧
    (1 ≤ numInterpolatedOf times ↔ 1 / 30 ≤ durationSeconds times) := by
  set d := durationSeconds times with hd
  have h30 : (0 : ℚ) < d * 30 := by positivity
  have hfloor : (0 : ℤ) ≤ ⌊d * 30⌋ := Int.floor_nonneg.mpr (le_of_lt h30)
  have hval : numInterpolatedOf times = (⌊d * 30⌋).toNat := by
    rw [numInterpolatedOf, numInterpolated, ← hd, if_pos h, pyInt_eq_floor (le_of_lt h30)]
  have hQ : ((numInterpolatedOf times : ℕ) : ℚ) = ((⌊d * 30⌋ : ℤ) : ℚ) := by
    rw [hval]
    exact_mod_cast congrArg (fun z : ℤ => (z : ℚ)) (Int.toNat_of_nonneg hfloor)
  refine ⟨?_, ?_, ?_⟩
  · rw [hQ]; exact Int.floor_le _
  · rw [hQ]; exact Int.lt_floor_add_one _
  · rw [hval]
    have h1 : 1 ≤ (⌊d * 30⌋).toNat ↔ (1 : ℤ) ≤ ⌊d * 30⌋ := by omega
    rw [h1, Int.le_floor]
    constructor
    · intro hfl
      have h2 : (1 : ℚ) ≤ d * 30 := by exact_mod_cast hfl
      linarith
    · intro hge
      have h2 : (1 : ℚ) ≤ d * 30 := by linarith
      exact_mod_cast h2

theorem frameCount_truncates_witness :
    0 < durationSeconds [0, 2] ∧
    ((numInterpolatedOf [0, 2] : ℚ) ≤ durationSeconds [0, 2] * 30 ∧
      durationSeconds [0, 2] * 30 < (numInterpolatedOf [0, 2] : ℚ) + 1 ∧
      (1 ≤ numInterpolatedOf [0, 2] ↔ 1 / 30 ≤ durationSeconds [0, 2])) :=
  ⟨by norm_num [durationSeconds], frameCount_truncates [0, 2] (by norm_num [durationSeconds])⟩

/-- C1 counterexample: for duration `24/25` s the code yields
`int(28.8) = 28` frames while the claim demands `max(1, round(28.8)) = 29`;
and for duration `1/100` s the code yields `0` frames, violating the claimed
minimum of 1. -/
theorem frameCount_claim_false :
    numInterpolatedOf [0, 24/25] = 28 ∧
    (max 1 (round ((durationSeconds [0, 24/25]) * 30))).toNat = 29 ∧
    numInterpolatedOf [0, 1/100] = 0 := by
  refine ⟨by with_unfolding_all decide, ?_, by with_unfolding_all decide⟩
  norm_num [durationSeconds, round_eq]
  rfl

/-- `round q = ⌊q⌋` exactly when the fractional part of `q` is below `1/2`. -/
theorem round_eq_floor_iff_fract (q : ℚ) : round q = ⌊q⌋ ↔ Int.fract q < 1/2 := by
  have hsplit : q + 1/2 = ((⌊q⌋ : ℤ) : ℚ) + (Int.fract q + 1/2) := by
    rw [← add_assoc, Int.floor_add_fract]
  rw [round_eq, hsplit, Int.floor_int_add]
  constructor
  · intro hz
    have h0 : ⌊Int.fract q + 1/2⌋ = 0 := by omega
    have h1 := (Set.mem_Ico.mp (Int.floor_eq_zero_iff.mp h0)).2
    linarith
  · intro hf
    have h0 : ⌊Int.fract q + 1/2⌋ = 0 := by
      rw [Int.floor_eq_zero_iff]
      exact Set.mem_Ico.mpr ⟨by linarith [Int.fract_nonneg q], by linarith⟩
    omega

/-- C2 (amended): the cache key quantizes by Python `int()` *truncation*
(floor, for the pipeline's non-negative metric values), not round-to-nearest:
two frames share a key iff their truncations agree, and the key coincides
with the claimed `(round power, round heartRate)` exactly when both
fractional parts are below `1/2`. -/
theorem cacheKey_truncates (p h p' h' : ℚ) (hp : 0 ≤ p) (hh : 0 ≤ h) :
    (cacheKey p h = cacheKey p' h' ↔ pyInt p = pyInt p' ∧ pyInt h = pyInt h') ∧
    (cacheKey p h = (round p, round h) ↔ Int.fract p < 1/2 ∧ Int.fract h < 1/2) := by
  constructor
  · simp [cacheKey, Prod.ext_iff]
  · rw [cacheKey, pyInt_eq_floor hp, pyInt_eq_floor hh, Prod.ext_iff]
    constructor
    · rintro ⟨h1, h2⟩
      exact ⟨(round_eq_floor_iff_fract p).mp h1.symm, (round_eq_floor_iff_fract h).mp h2.symm⟩
    · rintro ⟨h1, h2⟩
      exact ⟨((round_eq_floor_iff_fract p).mpr h1).symm, ((round_eq_floor_iff_fract h).mpr h2).symm⟩

theorem cacheKey_truncates_witness :
    (0 : ℚ) ≤ 1/2 ∧
    ((cacheKey (1/2) (1/2) = cacheKey 0 0 ↔
        pyInt (1/2 : ℚ) = pyInt 0 ∧ pyInt (1/2 : ℚ) = pyInt 0) ∧
      (cacheKey (1/2) (1/2) = (round (1/2 : ℚ), round (1/2 : ℚ)) ↔
        Int.fract (1/2 : ℚ) < 1/2 ∧ Int.fract (1/2 : ℚ) < 1/2)) :=
  ⟨by norm_num, cacheKey_truncates (1/2) (1/2) 0 0 (by norm_num) (by norm_num)⟩

/-- C2 counterexample: at frame values `power = heartRate = 1.5` the code's
key is `(1, 1)` (truncation), not the claimed `(round 1.5, round 1.5) = (2, 2)`;
and frames with powers `0.6` and `1.4` round to the same nearest integer yet
do *not* share a cache key, refuting the claimed "if and only if". -/
theorem cacheKey_claim_false :
    cacheKey (3/2) (3/2) ≠ (round (3/2 : ℚ), round (3/2 : ℚ)) ∧
    round (3/5 : ℚ) = round (7/5 : ℚ) ∧
    cacheKey (3/5) 0 ≠ cacheKey (7/5) 0 := by
  refine ⟨?_, ?_, ?_⟩ <;> with_unfolding_all decide

/-- C3 counterexample: on `exC3` the code assigns the third point speed `0`
(the missing-distance branch at `backend_logic.py` line 86 never inherits),
while the claim's rule would inherit the previous speed `1`. -/
theorem speeds_claim_false :
    computeSpeeds exC3 ≠ claimSpeeds exC3 ∧
    computeSpeeds exC3 = [0, 1, 0] ∧
    claimSpeeds exC3 = [0, 1, 1] := by
  refine ⟨?_, ?_, ?_⟩ <;> with_unfolding_all decide

theorem speedsAux_length (l : List Trackpoint) :
    ∀ prev ps, (speedsAux prev ps l).length = l.length := by
  induction l with
  | nil => intro prev ps; rfl
  | cons x rest ih => intro prev ps; simp [speedsAux, ih]

theorem speedsAux_get (l : List Trackpoint) :
    ∀ prev ps i a b, l.get? i = some a → l.get? (i + 1) = some b →
      (speedsAux prev ps l).get? (i + 1) = some (
        match b.distance, a.distance with
        | some d, some pd =>
          if 0 < b.time - a.time then (d - pd) / (b.time - a.time)
          else ((speedsAux prev ps l).get? i).getD 0
        | _, _ => 0) := by
  induction l with
  | nil => intro prev ps i a b ha _; simp at ha
  | cons x rest ih =>
    intro prev ps i a b ha hb
    match i with
    | 0 =>
      rw [List.get?_cons_zero, Option.some.injEq] at ha
      subst ha
      rw [List.get?_cons_succ] at hb
      match rest, hb with
      | y :: rest2, hb =>
        rw [List.get?_cons_zero, Option.some.injEq] at hb
        subst hb
        simp only [speedsAux, List.get?_cons_succ, List.get?_cons_zero, Option.getD_some]
    | i + 1 =>
      rw [List.get?_cons_succ] at ha hb
      simp only [speedsAux, List.get?_cons_succ]
      exact ih _ _ i a b ha hb

/-- C3 (amended): the first point's speed is 0; for `i > 0`,
`speed = (distance[i+1]-distance[i]) / Δt` when both distances are known and
`Δt > 0`; when both are known but `Δt ≤ 0` the speed *inherits* the previous
point's speed; when either distance is missing the speed is `0` (the code
does not inherit in that case). -/
theorem speeds_spec (tps : List Trackpoint) :
    (computeSpeeds tps).length = tps.length ∧
    (tps ≠ [] → (computeSpeeds tps).get? 0 = some 0) ∧
    (∀ i a b, tps.get? i = some a → tps.get? (i + 1) = some b →
      (computeSpeeds tps).get? (i + 1) = some (
        match b.distance, a.distance with
        | some d, some pd =>
          if 0 < b.time - a.time then (d - pd) / (b.time - a.time)
          else ((computeSpeeds tps).get? i).getD 0
        | _, _ => 0)) := by
  refine ⟨?_, ?_, ?_⟩
  · cases tps with
    | nil => rfl
    | cons x rest => simp [computeSpeeds, speedsAux_length]
  · intro h
    cases tps with
    | nil => exact absurd rfl h
    | cons x rest => rfl
  · intro i a b ha hb
    cases tps with
    | nil => simp at ha
    | cons x rest =>
      match i with
      | 0 =>
        rw [List.get?_cons_zero, Option.some.injEq] at ha
        subst ha
        rw [List.get?_cons_succ] at hb
        match rest, hb with
        | y :: rest2, hb =>
          rw [List.get?_cons_zero, Option.some.injEq] at hb
          subst hb
          simp only [computeSpeeds, speedsAux, List.get?_cons_succ, List.get?_cons_zero,
            Option.getD_some]
      | i + 1 =>
        rw [List.get?_cons_succ] at ha hb
        simp only [computeSpeeds, List.get?_cons_succ]
        exact speedsAux_get rest x 0 i a b ha hb

theorem speeds_spec_witness :
    (computeSpeeds exC3).get? 0 = some 0 ∧ (computeSpeeds exC3).get? 2 = some 0 :=
  ⟨(speeds_spec exC3).2.1 (by with_unfolding_all decide),
    (speeds_spec exC3).2.2 1 ⟨1, 0, 0, 0, some 1⟩ ⟨2, 0, 0, 0, none⟩
      (by with_unfolding_all decide) (by with_unfolding_all decide)⟩

/-- C6: the slice equals the in-order filter of the series by the inclusive
window `[start, end]` after both endpoints are normalized to UTC (a naive
endpoint interpreted in the caller's local zone, an aware one converted
directly); hence it is a subsequence of the input in original order, its
members are exactly the in-window points, and no-match yields `[]`. -/
theorem slice_is_filtered_subsequence (localOffset : ℚ) (s e : PyDatetime)
    (tps : List Trackpoint) :
    slice_data_and_save_json localOffset s e tps =
      tps.filter (fun tp => decide (toUtcSeconds localOffset s ≤ tp.time ∧
        tp.time ≤ toUtcSeconds localOffset e)) ∧
    (slice_data_and_save_json localOffset s e tps).Sublist tps ∧
    (∀ tp, tp ∈ slice_data_and_save_json localOffset s e tps ↔
      tp ∈ tps ∧ toUtcSeconds localOffset s ≤ tp.time ∧
        tp.time ≤ toUtcSeconds localOffset e) := by
  have hfilter : slice_data_and_save_json localOffset s e tps =
      tps.filter (fun tp => decide (toUtcSeconds localOffset s ≤ tp.time ∧
        tp.time ≤ toUtcSeconds localOffset e)) := by
    induction tps with
    | nil => rfl
    | cons x rest ih =>
      rw [slice_data_and_save_json, List.filter_cons]
      by_cases hx : toUtcSeconds localOffset s ≤ x.time ∧ x.time ≤ toUtcSeconds localOffset e
      · rw [if_pos hx, if_pos (by simpa using hx), ih]
      · rw [if_neg hx, if_neg (by simpa using hx), ih]
  refine ⟨hfilter, ?_, ?_⟩
  · rw [hfilter]; exact List.filter_sublist _
  · intro tp
    rw [hfilter, List.mem_filter]
    simp

theorem slice_witness :
    slice_data_and_save_json 0 ⟨5, none⟩ ⟨15, none⟩
        [⟨10, 0, 0, 0, none⟩, ⟨20, 0, 0, 0, none⟩] = [⟨10, 0, 0, 0, none⟩] ∧
    (⟨10, 0, 0, 0, none⟩ : Trackpoint) ∈
      slice_data_and_save_json 0 ⟨5, none⟩ ⟨15, none⟩
        [⟨10, 0, 0, 0, none⟩, ⟨20, 0, 0, 0, none⟩] :=
  ⟨by with_unfolding_all decide,
    ((slice_is_filtered_subsequence 0 ⟨5, none⟩ ⟨15, none⟩
        [⟨10, 0, 0, 0, none⟩, ⟨20, 0, 0, 0, none⟩]).2.2 _).mpr
      ⟨by with_unfolding_all decide, by with_unfolding_all decide,
        by with_unfolding_all decide⟩⟩

/-- C7: unparsable timestamps are skipped with a warning, never aborting the
build (points + warnings never exceed the input length); a successful build
is non-empty; the builder errors exactly when nothing survived filtering; and
nothing survives exactly when every sample lacked a parsable timestamp. -/
theorem buildAux_length (raws : List RawSample) :
    (buildAux raws).1.length + (buildAux raws).2.length ≤ raws.length := by
  induction raws with
  | nil => simp [buildAux]
  | cons r rest ih =>
    rw [buildAux]
    cases hts : r.timeStr with
    | none => simpa using Nat.le_succ_of_le ih
    | some ts =>
      cases hp : parseTcxTime ts with
      | some t =>
        simp only [hp, List.length_cons]
        omega
      | none =>
        simp only [hp, List.length_cons]
        omega

theorem buildAux_nil_iff (raws : List RawSample) :
    (buildAux raws).1 = [] ↔
      ∀ r ∈ raws, ∀ ts, r.timeStr = some ts → parseTcxTime ts = none := by
  induction raws with
  | nil => simp [buildAux]
  | cons r rest ih =>
    rw [buildAux]
    cases hts : r.timeStr with
    | none =>
      simp only [List.forall_mem_cons, hts]
      constructor
      · intro hn
        exact ⟨by intro ts hcontra; exact absurd hcontra (by simp), ih.mp hn⟩
      · intro hcon
        exact ih.mpr hcon.2
    | some ts =>
      cases hp : parseTcxTime ts with
      | some t =>
        simp only [hp, List.forall_mem_cons, hts]
        constructor
        · intro hcontra; exact absurd hcontra (by simp)
        · rintro ⟨hr1, _⟩
          exact absurd (hr1 ts rfl) (by simp [hp])
      | none =>
        simp only [hp, List.forall_mem_cons, hts]
        constructor
        · intro hn
          refine ⟨?_, ih.mp hn⟩
          intro ts2 hts2
          rw [Option.some.injEq] at hts2
          subst hts2
          exact hp
        · intro hcon
          exact ih.mpr hcon.2

/-- C7: unparsable timestamps are skipped with a warning, never aborting the
build (points + warnings never exceed the input length); a successful build
is non-empty; the builder errors exactly when nothing survived filtering; and
nothing survives exactly when every sample lacked a parsable timestamp. -/
theorem builder_spec (raws : List RawSample) :
    (buildAux raws).1.length + (buildAux raws).2.length ≤ raws.length ∧
    (∀ out, parse_tcx_file raws = .ok out →
      out.1 ≠ [] ∧ out.1.length ≤ raws.length ∧ out = buildAux raws) ∧
    ((∃ msg, parse_tcx_file raws = .error msg) ↔ (buildAux raws).1 = []) ∧
    ((buildAux raws).1 = [] ↔
      ∀ r ∈ raws, ∀ ts, r.timeStr = some ts → parseTcxTime ts = none) := by
  refine ⟨buildAux_length raws, ?_, ?_, buildAux_nil_iff raws⟩
  · intro out hout
    rw [parse_tcx_file] at hout
    by_cases hre : raws.isEmpty
    · rw [if_pos hre] at hout; exact absurd hout (by simp)
    · rw [if_neg hre] at hout
      by_cases hbe : (buildAux raws).1.isEmpty
      · rw [if_pos hbe] at hout; exact absurd hout (by simp)
      · rw [if_neg hbe] at hout
        have hout2 : out = buildAux raws := by simpa using hout.symm
        subst hout2
        exact ⟨by simpa using hbe,
          le_trans (Nat.le_add_right _ _) (buildAux_length raws), rfl⟩
  · rw [parse_tcx_file]
    by_cases hre : raws.isEmpty
    · have hnil : raws = [] := by simpa using hre
      subst hnil
      simp [buildAux]
    · rw [if_neg hre]
      by_cases hbe : (buildAux raws).1.isEmpty
      · rw [if_pos hbe]
        simpa using hbe
      · rw [if_neg hbe]
        constructor
        · rintro ⟨msg, hmsg⟩; exact absurd hmsg (by simp)
        · intro hn; exact absurd hn (by simpa using hbe)

theorem builder_spec_witness :
    (buildAux exRaws).1.length + (buildAux exRaws).2.length ≤ exRaws.length ∧
    ((buildAux exRaws).1 = [] ↔
      ∀ r ∈ exRaws, ∀ ts, r.timeStr = some ts → parseTcxTime ts = none) ∧
    (buildAux exRaws).1.length = 1 ∧ (buildAux exRaws).2.length = 1 :=
  ⟨(builder_spec exRaws).1, (builder_spec exRaws).2.2.2,
    by with_unfolding_all decide, by with_unfolding_all decide⟩

/-- C9: on every exit path — normal return or an exception in any step —
the transient sliced-data JSON artifact does not exist when control returns
to the caller, and the run succeeds exactly when no step raised. -/
theorem orchestrate_cleans_up (env : OrchEnv) :
    (orchestrate_video_generation env).tempExists = false ∧
    ((orchestrate_video_generation env).ok = true ↔
      env.cb10Raises = false ∧ env.sliceRaises = false ∧ env.cb20Raises = false ∧
        env.genRaises = false ∧ env.cb100Raises = false) := by
  rcases env with ⟨pre, c1, sc, sr, c2, g, c3⟩
  revert pre c1 sc sr c2 g c3
  decide

theorem append_ne_append_of_last_ne (a u b v : String) (c d : Char)
    (hu : u.data.getLast? = some c) (hv : v.data.getLast? = some d) (hcd : c ≠ d) :
    a ++ u ≠ b ++ v := by
  intro heq
  have h2 : (a ++ u).data = (b ++ v).data := congrArg String.data heq
  rw [String.data_append, String.data_append] at h2
  have hun : u.data ≠ [] := by intro hn; rw [hn] at hu; exact Option.noConfusion hu
  have hvn : v.data ≠ [] := by intro hn; rw [hn] at hv; exact Option.noConfusion hv
  have h3 : (a.data ++ u.data).getLast? = some c := by
    rw [List.getLast?_append_of_ne_nil _ hun]; exact hu
  have h4 : (b.data ++ v.data).getLast? = some d := by
    rw [List.getLast?_append_of_ne_nil _ hvn]; exact hv
  rw [h2, h4] at h3
  injection h3 with h5
  exact hcd h5.symm

theorem powerTextStr_ne_hrTextStr (p h2 : ℤ) : powerTextStr p ≠ hrTextStr h2 :=
  append_ne_append_of_last_ne _ "W" _ " bpm" 'W' 'm' (by decide) (by decide) (by decide)

theorem wkgTextStr_ne_hrTextStr (x : ℚ) (h2 : ℤ) : wkgTextStr x ≠ hrTextStr h2 :=
  append_ne_append_of_last_ne _ " W/kg" _ " bpm" 'g' 'm' (by decide) (by decide) (by decide)

theorem getOrInsertText_mono (tc : TextCache) (s : String) (f : ℕ) {s2 : String} {im : Img}
    (h : lookupA tc s2 = some im) :
    lookupA (getOrInsertText tc s f).1 s2 = some im := by
  cases hl : lookupA tc s with
  | some im2 => simpa [getOrInsertText, hl] using h
  | none =>
    simp only [getOrInsertText, hl, lookupA]
    by_cases he : s2 = s
    · subst he; rw [h] at hl; exact Option.noConfusion hl
    · rw [if_neg he]; exact h

theorem getOrInsertText_self (tc : TextCache) (s : String) (f : ℕ) :
    lookupA (getOrInsertText tc s f).1 s = some (getOrInsertText tc s f).2 := by
  cases hl : lookupA tc s with
  | some im2 => simp [getOrInsertText, hl]
  | none => simp [getOrInsertText, hl, lookupA]

theorem getOrInsertText_val_hr {tc : TextCache} (htc : TCgood tc) (h2 : ℤ) :
    (getOrInsertText tc (hrTextStr h2) 90).2 = Img.text (hrTextStr h2) 90 := by
  cases hl : lookupA tc (hrTextStr h2) with
  | some im => simpa [getOrInsertText, hl] using htc h2 im hl
  | none => simp [getOrInsertText, hl]

theorem TCgood_getOrInsert_ne {tc : TextCache} (htc : TCgood tc) (s : String) (f : ℕ)
    (hs : ∀ h2 : ℤ, s ≠ hrTextStr h2) : TCgood (getOrInsertText tc s f).1 := by
  intro h2 im hlk
  cases hl : lookupA tc s with
  | some im2 =>
    simp only [getOrInsertText, hl] at hlk
    exact htc h2 im hlk
  | none =>
    simp only [getOrInsertText, hl, lookupA] at hlk
    rw [if_neg (fun he => (hs h2) he.symm)] at hlk
    exact htc h2 im hlk

theorem TCgood_getOrInsert_hr {tc : TextCache} (htc : TCgood tc) (h2 : ℤ) :
    TCgood (getOrInsertText tc (hrTextStr h2) 90).1 := by
  intro h3 im hlk
  cases hl : lookupA tc (hrTextStr h2) with
  | some im2 =>
    simp only [getOrInsertText, hl] at hlk
    exact htc h3 im hlk
  | none =>
    simp only [getOrInsertText, hl, lookupA] at hlk
    by_cases he : hrTextStr h3 = hrTextStr h2
    · rw [if_pos he] at hlk
      injection hlk with h6
      rw [← h6, he]
    · rw [if_neg he] at hlk
      exact htc h3 im hlk

theorem renderStep_spec {tc : TextCache} {bc : BaseCache} (htc : TCgood tc)
    (hhit : HitGood tc bc) (v : FrameVals) (i : ℕ) :
    ∃ tc2 bc2 en, renderStep tc bc v i = .ok (tc2, bc2, en) ∧
      TCgood tc2 ∧ HitGood tc2 bc2 ∧
      (∀ k r, lookupA bc k = some r → lookupA bc2 k = some r) ∧
      lookupA bc2 en.key = some en.base ∧
      en.hrImg = Img.text (hrTextStr en.key.2) 90 ∧
      en.hrVal = en.key.2 ∧ en.idx = i := by
  cases hk : lookupA bc (pyInt v.power, pyInt v.hr) with
  | some cached =>
    obtain ⟨im, him⟩ := hhit _ _ hk
    have him2 : im = Img.text (hrTextStr (pyInt v.hr)) 90 := htc _ im him
    refine ⟨tc, bc, ⟨cached, im, (pyInt v.power, pyInt v.hr), pyInt v.hr, i⟩,
      ?_, htc, hhit, fun k r h => h, hk, him2, rfl, rfl⟩
    simp only [renderStep, hk, him]
  | none =>
    simp only [renderStep, hk]
    refine ⟨_, _, _, rfl, ?_, ?_, ?_, ?_, ?_, rfl, rfl⟩
    · exact TCgood_getOrInsert_hr
        (TCgood_getOrInsert_ne
          (TCgood_getOrInsert_ne htc _ 120 (fun h2 => powerTextStr_ne_hrTextStr _ h2))
          _ 90 (fun h2 => wkgTextStr_ne_hrTextStr _ h2)) _
    · intro k r hlk
      simp only [lookupA] at hlk
      by_cases hke : k = (pyInt v.power, pyInt v.hr)
      · subst hke
        exact ⟨_, getOrInsertText_self _ _ _⟩
      · rw [if_neg hke] at hlk
        obtain ⟨im, him⟩ := hhit k r hlk
        exact ⟨im, getOrInsertText_mono _ _ _ (getOrInsertText_mono _ _ _
          (getOrInsertText_mono _ _ _ him))⟩
    · intro k r h
      simp only [lookupA]
      have hke : k ≠ (pyInt v.power, pyInt v.hr) := by
        intro hke; subst hke; rw [h] at hk; exact Option.noConfusion hk
      rw [if_neg hke]
      exact h
    · simp [lookupA]
    · exact getOrInsertText_val_hr
        (TCgood_getOrInsert_ne
          (TCgood_getOrInsert_ne htc _ 120 (fun h2 => powerTextStr_ne_hrTextStr _ h2))
          _ 90 (fun h2 => wkgTextStr_ne_hrTextStr _ h2)) _

theorem videoLoop_inv (failAt : Option ℕ) (vals : List FrameVals) :
    ∀ tc bc i, TCgood tc → HitGood tc bc →
      ((failAt = none → ∃ out, videoLoop failAt tc bc i vals = .ok out) ∧
       (∀ tc2 bc2 es, videoLoop failAt tc bc i vals = .ok (tc2, bc2, es) →
         TCgood tc2 ∧ HitGood tc2 bc2 ∧
         (∀ k r, lookupA bc k = some r → lookupA bc2 k = some r) ∧
         (∀ en ∈ es, lookupA bc2 en.key = some en.base ∧
           en.hrImg = Img.text (hrTextStr en.key.2) 90 ∧ en.hrVal = en.key.2))) := by
  induction vals with
  | nil =>
    intro tc bc i htc hhit
    constructor
    · intro _
      exact ⟨(tc, bc, []), rfl⟩
    · intro tc2 bc2 es h
      simp only [videoLoop] at h
      obtain ⟨h1, h2, h3⟩ : tc = tc2 ∧ bc = bc2 ∧ [] = es := by
        injection h with h4
        exact ⟨congrArg Prod.fst h4, congrArg Prod.fst (congrArg Prod.snd h4),
          congrArg Prod.snd (congrArg Prod.snd h4)⟩
      subst h1; subst h2; subst h3
      exact ⟨htc, hhit, fun k r h => h, by intro en hen; exact absurd hen (by simp)⟩
  | cons v rest ih =>
    intro tc bc i htc hhit
    obtain ⟨tc1, bc1, en, hstep, htc1, hhit1, hmono1, hkey1, hhr1, hv1, hidx1⟩ :=
      renderStep_spec htc hhit v i
    constructor
    · intro hfa
      subst hfa
      obtain ⟨⟨tc2, bc2, es⟩, hout⟩ := (ih tc1 bc1 (i + 1) htc1 hhit1).1 rfl
      refine ⟨(tc2, bc2, en :: es), ?_⟩
      simp only [videoLoop, hstep]
      rw [if_neg (by simp), hout]
    · intro tc2 bc2 es hloop
      simp only [videoLoop, hstep] at hloop
      by_cases hfi : failAt = some i
      · rw [if_pos hfi] at hloop
        exact absurd hloop (by simp)
      · rw [if_neg hfi] at hloop
        cases hrec : videoLoop failAt tc1 bc1 (i + 1) rest with
        | error e =>
          rw [hrec] at hloop
          exact absurd hloop (by simp)
        | ok out3 =>
          obtain ⟨tc3, bc3, es3⟩ := out3
          rw [hrec] at hloop
          obtain ⟨h1, h2, h3⟩ : tc3 = tc2 ∧ bc3 = bc2 ∧ en :: es3 = es := by
            injection hloop with h4
            exact ⟨congrArg Prod.fst h4, congrArg Prod.fst (congrArg Prod.snd h4),
              congrArg Prod.snd (congrArg Prod.snd h4)⟩
          obtain ⟨htc3, hhit3, hmono3, hes3⟩ :=
            (ih tc1 bc1 (i + 1) htc1 hhit1).2 tc3 bc3 es3 hrec
          subst h1; subst h2; subst h3
          refine ⟨htc3, hhit3, fun k r hkr => hmono3 k r (hmono1 k r hkr), ?_⟩
          intro en2 hen2
          rcases List.mem_cons.mp hen2 with hen2 | hen2
          · subst hen2
            exact ⟨hmono3 _ _ hkey1, hhr1, hv1⟩
          · exact hes3 en2 hen2

/-- C10: on the miss path the heart-rate string is inserted into the text
cache before the base raster is stored, and neither cache evicts, so whenever
a key is in the base-frame cache its heart-rate text is in the text cache;
hence a full render run from empty caches never hits the `KeyError` path and
always succeeds, with the invariant holding of the final caches. -/
theorem hit_path_text_lookup_never_fails (vals : List FrameVals) :
    ∃ tc bc es, videoLoop none [] [] 0 vals = .ok (tc, bc, es) ∧
      ∀ k r, lookupA bc k = some r → ∃ im, lookupA tc (hrTextStr k.2) = some im := by
  have h0 : TCgood ([] : TextCache) := fun h2 im h => Option.noConfusion h
  have h1 : HitGood ([] : TextCache) ([] : BaseCache) := fun k r h => Option.noConfusion h
  obtain ⟨⟨tc, bc, es⟩, hout⟩ := (videoLoop_inv none vals [] [] 0 h0 h1).1 rfl
  obtain ⟨_, hhit, _, _⟩ := (videoLoop_inv none vals [] [] 0 h0 h1).2 tc bc es hout
  exact ⟨tc, bc, es, hout, hhit⟩

theorem compositeEntry_congr {e1 e2 : Entry} (hb : e1.base = e2.base)
    (hh : e1.hrImg = e2.hrImg)
    (hs : scaleFactor e1.hrVal e1.idx = scaleFactor e2.hrVal e2.idx) :
    compositeEntry e1 = compositeEntry e2 := by
  unfold compositeEntry
  rw [hb, hh, hs]

/-- C5 (amended): frames with equal quantized keys share the identical base
raster (the second occurrence clones the first's cached raster) and the
identical heart-rate text image; their fully composited frames are identical
whenever their animation scale factors also coincide — which can happen for
distinct frame indices, so the overlay need not differ. -/
theorem base_raster_determinism (vals : List FrameVals) (i j : ℕ)
    (hk : keyAt vals i = keyAt vals j) (hs : (keyAt vals i).isSome = true) :
    baseAt vals i = baseAt vals j ∧ hrImgAt vals i = hrImgAt vals j ∧
    (scaleAt vals i = scaleAt vals j → frameAt vals i = frameAt vals j) := by
  cases hE : entriesOf vals with
  | none =>
    exfalso
    rw [keyAt, entryAt, hE] at hs
    simp at hs
  | some es =>
    cases hei : es[i]? with
    | none =>
      exfalso
      rw [keyAt, entryAt, hE] at hs
      simp [hei] at hs
    | some e1 =>
      cases hej : es[j]? with
      | none =>
        exfalso
        simp [keyAt, entryAt, hE, hei, hej] at hk
      | some e2 =>
        have hkey : e1.key = e2.key := by
          simpa [keyAt, entryAt, hE, hei, hej] using hk
        have hrun : ∃ tc bc, videoLoop none [] [] 0 vals = .ok (tc, bc, es) := by
          rw [entriesOf] at hE
          cases hv : videoLoop none [] [] 0 vals with
          | error e =>
            rw [hv] at hE
            exact absurd hE (by simp)
          | ok out =>
            obtain ⟨tc, bc, es2⟩ := out
            rw [hv] at hE
            have : es2 = es := by simpa using hE
            subst this
            exact ⟨tc, bc, rfl⟩
        obtain ⟨tc, bc, hrun⟩ := hrun
        have h0 : TCgood ([] : TextCache) := fun h2 im h => Option.noConfusion h
        have h1 : HitGood ([] : TextCache) ([] : BaseCache) := fun k r h => Option.noConfusion h
        obtain ⟨_, _, _, hes⟩ := (videoLoop_inv none vals [] [] 0 h0 h1).2 tc bc es hrun
        have he1 := hes e1 (List.getElem?_mem hei)
        have he2 := hes e2 (List.getElem?_mem hej)
        have hbase : e1.base = e2.base := by
          have l1 : lookupA bc e2.key = some e1.base := hkey ▸ he1.1
          have l2 : lookupA bc e2.key = some e2.base := he2.1
          rw [l2] at l1
          injection l1 with l3
          exact l3.symm
        have hhrImg : e1.hrImg = e2.hrImg := by
          rw [he1.2.1, he2.2.1, hkey]
        refine ⟨?_, ?_, ?_⟩
        · simp [baseAt, entryAt, hE, hei, hej, hbase]
        · simp [hrImgAt, entryAt, hE, hei, hej, hhrImg]
        · intro hsc
          have hscale : scaleFactor e1.hrVal e1.idx = scaleFactor e2.hrVal e2.idx := by
            simpa [scaleAt, entryAt, hE, hei, hej] using hsc
          simp only [frameAt, entryAt, hE, Option.some_bind, hei, hej, Option.map_some']
          exact congrArg some (compositeEntry_congr hbase hhrImg hscale)

theorem base_raster_determinism_witness :
    keyAt exC5 0 = keyAt exC5 1 ∧ (keyAt exC5 0).isSome = true ∧
    (baseAt exC5 0 = baseAt exC5 1 ∧ hrImgAt exC5 0 = hrImgAt exC5 1 ∧
      (scaleAt exC5 0 = scaleAt exC5 1 → frameAt exC5 0 = frameAt exC5 1)) :=
  ⟨by with_unfolding_all decide, by with_unfolding_all decide,
    base_raster_determinism exC5 0 1 (by with_unfolding_all decide)
      (by with_unfolding_all decide)⟩

theorem scaleFactor_hr_zero (i j : ℕ) : scaleFactor 0 i = scaleFactor 0 j := by
  simp [scaleFactor, scaleFactorAt]

/-- C5 counterexample: frames 0 and 1 of `exC5` have equal quantized keys and
different frame indices, yet their fully composited frames (animated heart
overlay included) are *identical* — at `hr_val = 0` the beat frequency is 0,
so the overlay does not differ although the frame indices do. -/
theorem heart_overlay_claim_false :
    (0 : ℕ) ≠ 1 ∧ keyAt exC5 0 = keyAt exC5 1 ∧ (keyAt exC5 0).isSome = true ∧
    frameAt exC5 0 = frameAt exC5 1 := by
  refine ⟨by decide, by with_unfolding_all decide, by with_unfolding_all decide, ?_⟩
  cases ha : entryAt exC5 0 with
  | none =>
    have hsm : (entryAt exC5 0).isSome = true := by with_unfolding_all decide
    rw [ha] at hsm
    exact absurd hsm (by simp)
  | some e1 =>
    cases hb : entryAt exC5 1 with
    | none =>
      have hsm : (entryAt exC5 1).isSome = true := by with_unfolding_all decide
      rw [hb] at hsm
      exact absurd hsm (by simp)
    | some e2 =>
      have hbase : e1.base = e2.base := by
        have hB : (entryAt exC5 0).map Entry.base = (entryAt exC5 1).map Entry.base := by
          with_unfolding_all decide
        rw [ha, hb] at hB
        simpa using hB
      have hhr : e1.hrImg = e2.hrImg := by
        have hH : (entryAt exC5 0).map Entry.hrImg = (entryAt exC5 1).map Entry.hrImg := by
          with_unfolding_all decide
        rw [ha, hb] at hH
        simpa using hH
      have hv0 : e1.hrVal = 0 := by
        have hV : (entryAt exC5 0).map Entry.hrVal = some 0 := by with_unfolding_all decide
        rw [ha] at hV
        simpa using hV
      have hv1 : e2.hrVal = 0 := by
        have hV : (entryAt exC5 1).map Entry.hrVal = some 0 := by with_unfolding_all decide
        rw [hb] at hV
        simpa using hV
      have hsc : scaleFactor e1.hrVal e1.idx = scaleFactor e2.hrVal e2.idx := by
        rw [hv0, hv1]
        exact scaleFactor_hr_zero _ _
      simp only [frameAt, ha, hb, Option.map_some']
      exact congrArg some (compositeEntry_congr hbase hhr hsc)

theorem scaleFactorAt_period60 (fps : ℕ) (hf : fps ≠ 0) (i : ℕ) :
    scaleFactorAt fps 60 (i + fps) = scaleFactorAt fps 60 i := by
  have hfR : (fps : ℝ) ≠ 0 := Nat.cast_ne_zero.mpr hf
  unfold scaleFactorAt
  have key : 2 * Real.pi * (((60 : ℤ) : ℝ) / 60) * (((i + fps : ℕ) : ℝ) / (fps : ℝ)) =
      2 * Real.pi * (((60 : ℤ) : ℝ) / 60) * ((i : ℝ) / (fps : ℝ)) + 2 * Real.pi := by
    push_cast
    field_simp
    ring
  rw [key, Real.sin_add_two_pi]

/-- C8: the heart-icon scale factor equals
`1 + strength * (0.5 + 0.5 * sin(2π * (hr/60) * (i/fps)))`, and for
`heartRate = 60` frames `i` and `i + fps` receive the same factor at every
non-zero frame rate (period exactly 1 second of output video), in particular
at the configured `VIDEO_FPS`. -/
theorem heart_scale_formula_and_period (fps : ℕ) (hf : fps ≠ 0) (hr : ℤ) (i : ℕ) :
    scaleFactorAt fps hr i =
      1 + HEART_ANIMATION_STRENGTH *
        (0.5 + 0.5 * Real.sin (2 * Real.pi * ((hr : ℝ) / 60) * ((i : ℝ) / (fps : ℝ)))) ∧
    scaleFactorAt fps 60 (i + fps) = scaleFactorAt fps 60 i ∧
    scaleFactor 60 (i + VIDEO_FPS) = scaleFactor 60 i := by
  refine ⟨?_, scaleFactorAt_period60 fps hf i, ?_⟩
  · unfold scaleFactorAt
    ring
  · simpa [scaleFactor, VIDEO_FPS] using scaleFactorAt_period60 30 (by decide) i

theorem heart_scale_witness :
    scaleFactorAt 30 60 (0 + 30) = scaleFactorAt 30 60 0 :=
  (heart_scale_formula_and_period 30 (by decide) 60 0).2.1

/-- C4 (amended): `out.release()` runs exactly on successful completion of
the render-and-write loop; an exception raised inside the loop propagates
*without* releasing the sink (there is no try/finally around the loop). -/
theorem sink_released_iff_success (assetsOk openOk : Bool) (failAt : Option ℕ)
    (vals : List FrameVals) :
    (create_gauge_video assetsOk openOk failAt vals).released = true ↔
      ∃ es, (create_gauge_video assetsOk openOk failAt vals).result = .ok es := by
  unfold create_gauge_video
  by_cases ha : assetsOk = false
  · simp [ha]
  · rw [if_neg ha]
    by_cases hv : vals = []
    · simp [hv]
    · rw [if_neg hv]
      by_cases ho : openOk = false
      · simp [ho]
      · rw [if_neg ho]
        cases hl : videoLoop failAt [] [] 0 vals with
        | ok out => simp
        | error e => simp

/-- C4 counterexample: with assets present and the sink opened, a
`SinkWriteFailure` at frame 0 propagates out of `create_gauge_video` with
the sink still unreleased, contradicting the claimed release-before-
propagation. -/
theorem sink_not_released_on_write_error :
    (create_gauge_video true true (some 0) exC4).opened = true ∧
    (create_gauge_video true true (some 0) exC4).result = .error .sinkWrite ∧
    (create_gauge_video true true (some 0) exC4).released = false := by
  refine ⟨?_, ?_, ?_⟩ <;> with_unfolding_all decide

theorem sink_released_iff_success_witness :
    (create_gauge_video true true none exC4).released = true ↔
      ∃ es, (create_gauge_video true true none exC4).result = .ok es :=
  sink_released_iff_success true true none exC4


end GaugeCreator
